import Mathlib

/-!
The tokenizer and the operator-chain evaluator of myshell.

A shallow embedding of `src/myshell.c`.  C strings are lists of characters
(the bytes before the terminating NUL); a `char *[]` array is a list of
optional strings, `none` standing for a `NULL` entry.  The operating system
(`chdir`, `getcwd`, `pipe`, `fork`, `waitpid`) is a record of functions over an
abstract world state; `waitpid` may fail, as it does when the `SIGCHLD` handler
`handle_zombie` has reaped the child before the interpreter waits for it.
-/

namespace MyShell

/-- A C string: the characters before the terminating NUL. -/
abbrev CStr := List Char

/-- An array `char *xs[]`; `none` is a `NULL` entry. -/
abbrev TokenArray := List (Option CStr)

def MAX_INPUT : Nat := 2048
def MAX_TOKENS : Nat := 128
def MAX_PIPES : Nat := 16

/-- Whether `c` is one of the characters of the delimiter string `delim`. -/
def is_delim (delim : CStr) (c : Char) : Bool := delim.contains c

/-- C library `strspn`: length of the longest prefix of `s` made of characters of `accept`. -/
def strspn (s accept : CStr) : Nat :=
  (s.takeWhile (is_delim accept)).length

/-- C library `strcspn`: length of the longest prefix of `s` free of characters of `reject`. -/
def strcspn (s reject : CStr) : Nat :=
  (s.takeWhile (fun c => !is_delim reject c)).length

/-- C library `strtok_r`, called on the string at the scan position `s` (the
argument on the first call, `*saveptr` on the later ones).  Result: the token
(`none` for `NULL`) and the new `*saveptr`.  The delimiter argument is a SET of
characters.  The NUL written over the delimiter that ends a token is what makes
the token the list `s.take n`. -/
def strtok_r (s delim : CStr) : Option CStr × CStr :=
  match s with
  | [] => (none, s)
  | _ :: _ =>
    let s1 := s.drop (strspn s delim)
    match s1 with
    | [] => (none, s1)
    | _ :: _ =>
      let n := strcspn s1 delim
      match s1.drop n with
      | [] => (some s1, [])
      | _ :: rest => (some (s1.take n), rest)

/-- The `while (token && count < MAX_TOKENS - 1)` loop of `tokenize_input`.
`room` is `MAX_TOKENS - 1 - count`, so `room = 0` is the failure of the second
conjunct of the loop condition. -/
def tokenize_loop (delim : CStr) :
    Nat → Option CStr → CStr → Nat → TokenArray → Nat × TokenArray
  | 0, _, _, count, tokens => (count, tokens)
  | _ + 1, none, _, count, tokens => (count, tokens)
  | room + 1, some token, saveptr, count, tokens =>
    let r := strtok_r saveptr delim
    tokenize_loop delim room r.1 r.2 (count + 1) (tokens.set count (some token))

/-- Source `tokenize_input`: returns `count` and the array `tokens` after the call. -/
def tokenize_input (input : CStr) (tokens : TokenArray) (delim : CStr) : Nat × TokenArray :=
  let r := strtok_r input delim
  let out := tokenize_loop delim (MAX_TOKENS - 1) r.1 r.2 0 tokens
  (out.1, out.2.set out.1 none)

/-- Specification side of the tokenizer: the maximal non-empty substrings of
`input` that contain no character of `delim`, from left to right. -/
def delimiter_free_runs (delim input : CStr) : List CStr :=
  (input.splitOnP (is_delim delim)).filter (fun t => !t.isEmpty)

/-- Contents of a local array before anything is stored in it.  The code reads
an entry only after `tokenize_input` has written it. -/
def fresh_tokens : TokenArray := List.replicate MAX_TOKENS none


/-! ## The operating system -/

/-- What a forked child goes on to do.  `exec` is the child of `run_command`
(`execvp(args[0], args)`, `exit(EXIT_FAILURE)` when that fails); `stage` is the
child number `i` of `execute_pipeline`, which wires its standard streams to the
neighbouring pipes, closes every pipe end, and runs `command`. -/
inductive Child where
  | exec (args : List CStr)
  | stage (i cmd_count : Nat) (command : Option CStr)
  deriving DecidableEq, Repr

/-- How a child ended, as `waitpid` reports it. -/
inductive Termination where
  | exited (code : Nat)
  | signaled (sig : Nat) (core : Bool)
  deriving DecidableEq, Repr

/-- The `int` that `waitpid` stores in `*status` (the Linux encoding). -/
def wait_status : Termination → Nat
  | .exited code => (code % 256) * 256
  | .signaled sig core => sig % 128 + (if core then 128 else 0)

/-- The `WIFEXITED` of `<sys/wait.h>`: `(status & 0x7f) == 0`. -/
def WIFEXITED (status : Nat) : Bool := status % 128 == 0

/-- The `WEXITSTATUS` of `<sys/wait.h>`: `(status & 0xff00) >> 8`. -/
def WEXITSTATUS (status : Nat) : Nat := (status / 256) % 256

/-- The system calls the interpreter makes, over a world state `σ`.  `fork`
gives the value returned in the parent (negative on failure); what the child
does is its `Child` argument.  `waitpid pid` is the call
`waitpid(pid, &status, 0)`: `some t` when it reports the termination `t` of the
child and stores its wait status, `none` when it fails and stores nothing (it
returns -1 with `ECHILD` when `handle_zombie`, installed by `main` for
`SIGCHLD`, has reaped the child with its `waitpid(-1, NULL, WNOHANG)` before the
call).  `uninit_status` gives the bits that an uninitialised local `int status`
holds. -/
structure OS (σ : Type) where
  getenv_HOME : σ → Option CStr
  chdir : Option CStr → σ → Int × σ
  getcwd : σ → Bool
  pipe : σ → Int × σ
  fork : Child → σ → Int × σ
  waitpid : Int → σ → Option Termination × σ
  uninit_status : σ → Nat

/-- The local `int status` after `waitpid(pid, &status, 0)`, whose return value
the source does not look at: the wait status the call stored, or what the
uninitialised variable held when the call failed. -/
def status_after (reported : Option Termination) (uninit : Nat) : Nat :=
  match reported with
  | some t => wait_status t
  | none => uninit

/-- The trace of the interpreter: every system call it makes (for `waitpid`,
with the value of `status` after the call), and every arrival at the
background-marker check of `process_input` (with `pipe_count` and the string
read from `pipe_cmds[pipe_count - 1]`). -/
inductive Event where
  | chdir (target : Option CStr) (ret : Int)
  | getcwd (found : Bool)
  | pipe (ret : Int)
  | fork (child : Child) (pid : Int)
  | waitpid (pid : Int) (status : Nat)
  | bg_check (pipe_count : Nat) (cmd : CStr)
  deriving DecidableEq, Repr

/-- Undefined behaviour of the C program that the model makes explicit. -/
inductive Fault where
  | index_out_of_range
  | null_token
  deriving DecidableEq, Repr

/-- State of the interpreter: the global `last_status`, the world, the trace. -/
structure Shell (σ : Type) where
  last_status : Int
  world : σ
  log : List Event

/-- Reading `xs[i]`; a `NULL` entry and an index past the array both give `none`. -/
def arr_get (xs : TokenArray) (i : Nat) : Option CStr := (xs.get? i).join

/-- The argument vector `execvp` sees: the entries before the first `NULL`. -/
def argv : TokenArray → List CStr
  | some a :: rest => a :: argv rest
  | _ => []

/-- The delimiter string `" \t\r\n"` of `run_command` and `execute_pipeline`. -/
def whitespace : CStr := [' ', '\t', '\r', '\n']

/-! ## The interpreter -/

/-- Source `execute_builtin`: `0`/`1` for a builtin, `-1` for "not a builtin". -/
def execute_builtin {σ : Type} (os : OS σ) (args : TokenArray) (st : Shell σ) : Int × Shell σ :=
  match arr_get args 0 with
  | none => (0, st)
  | some a0 =>
    if a0 = ['c', 'd'] then
      let target := match arr_get args 1 with
        | some t => some t
        | none => os.getenv_HOME st.world
      let r := os.chdir target st.world
      let st1 : Shell σ := { st with world := r.2, log := st.log ++ [Event.chdir target r.1] }
      if r.1 ≠ 0 then (1, st1) else (0, st1)
    else if a0 = ['p', 'w', 'd'] then
      let found := os.getcwd st.world
      let st1 : Shell σ := { st with log := st.log ++ [Event.getcwd found] }
      if found then (0, st1) else (1, st1)
    else (-1, st)

/-- First loop of `execute_pipeline`: `pipe(pipes[i])` for `i < cmd_count - 1`.
The flag is `false` when a `pipe` call failed (the function returns). -/
def create_pipes {σ : Type} (os : OS σ) : List Nat → Shell σ → Except Fault (Bool × Shell σ)
  | [], st => .ok (true, st)
  | i :: is, st =>
    if MAX_PIPES ≤ i then .error Fault.index_out_of_range
    else
      let r := os.pipe st.world
      let st1 : Shell σ := { st with world := r.2, log := st.log ++ [Event.pipe r.1] }
      if r.1 = -1 then .ok (false, st1) else create_pipes os is st1

/-- Second loop of `execute_pipeline`: one `fork` for each stage.  Result: the
array `pids`, or `none` when a `fork` failed (the function returns). -/
def spawn_stages {σ : Type} (os : OS σ) (commands : TokenArray) (cmd_count : Nat) :
    List Nat → List Int → Shell σ → Except Fault (Option (List Int) × Shell σ)
  | [], pids, st => .ok (some pids, st)
  | i :: is, pids, st =>
    if MAX_PIPES ≤ i then .error Fault.index_out_of_range
    else
      let child := Child.stage i cmd_count (arr_get commands i)
      let r := os.fork child st.world
      let st1 : Shell σ := { st with world := r.2, log := st.log ++ [Event.fork child r.1] }
      if r.1 < 0 then .ok (none, st1) else spawn_stages os commands cmd_count is (pids ++ [r.1]) st1

/-- Last loop of `execute_pipeline`: wait for every child, keep the status of the last. -/
def wait_stages {σ : Type} (os : OS σ) (cmd_count : Nat) (pids : List Int) :
    List Nat → Shell σ → Shell σ
  | [], st => st
  | i :: is, st =>
    let pid := (pids.get? i).getD 0
    let r := os.waitpid pid st.world
    let status := status_after r.1 (os.uninit_status st.world)
    let st1 : Shell σ := { st with world := r.2, log := st.log ++ [Event.waitpid pid status] }
    let st2 : Shell σ :=
      if i = cmd_count - 1 then
        { st1 with last_status := if WIFEXITED status then (WEXITSTATUS status : Int) else 1 }
      else st1
    wait_stages os cmd_count pids is st2

/-- Source `execute_pipeline` (closing a pipe end has no effect on the model). -/
def execute_pipeline {σ : Type} (os : OS σ) (commands : TokenArray) (cmd_count : Nat)
    (st : Shell σ) : Except Fault (Shell σ) :=
  match create_pipes os (List.range (cmd_count - 1)) st with
  | .error f => .error f
  | .ok (false, st1) => .ok st1
  | .ok (true, st1) =>
    match spawn_stages os commands cmd_count (List.range cmd_count) [] st1 with
    | .error f => .error f
    | .ok (none, st2) => .ok st2
    | .ok (some pids, st2) => .ok (wait_stages os cmd_count pids (List.range cmd_count) st2)

/-- Source `run_command`: the returned status and the state after the call. -/
def run_command {σ : Type} (os : OS σ) (command : CStr) (background : Bool) (st : Shell σ) :
    Int × Shell σ :=
  let args := (tokenize_input command fresh_tokens whitespace).2
  match arr_get args 0 with
  | none => (0, st)
  | some _ =>
    let b := execute_builtin os args st
    if b.1 ≥ 0 then b
    else
      let child := Child.exec (argv args)
      let r := os.fork child b.2.world
      let st1 : Shell σ := { b.2 with world := r.2, log := b.2.log ++ [Event.fork child r.1] }
      if r.1 < 0 then (1, st1)
      else if background then (0, st1)
      else
        let w := os.waitpid r.1 st1.world
        let status := status_after w.1 (os.uninit_status st1.world)
        let st2 : Shell σ := { st1 with world := w.2, log := st1.log ++ [Event.waitpid r.1 status] }
        (if WIFEXITED status then (WEXITSTATUS status : Int) else 1, st2)

/-- Body of the `k` loop of `process_input` (source lines 251-269): the pipe
split, the background-marker check, and the dispatch. -/
def or_loop_body {σ : Type} (os : OS σ) (or_cmd : CStr) (st : Shell σ) : Except Fault (Shell σ) :=
  let p := tokenize_input or_cmd fresh_tokens ['|']
  let pipe_count := p.1
  if pipe_count = 0 then .error Fault.index_out_of_range
  else
    match arr_get p.2 (pipe_count - 1) with
    | none => .error Fault.null_token
    | some cmd =>
      let st1 : Shell σ := { st with log := st.log ++ [Event.bg_check pipe_count cmd] }
      let len := cmd.length
      let bg : Bool := decide (len > 0) && (cmd.get? (len - 1) == some '&')
      let pipe_cmds := if bg then p.2.set (pipe_count - 1) (some (cmd.take (len - 1))) else p.2
      if pipe_count > 1 then execute_pipeline os pipe_cmds pipe_count st1
      else
        match arr_get pipe_cmds 0 with
        | none => .error Fault.null_token
        | some c =>
          let r := run_command os c bg st1
          .ok { r.2 with last_status := r.1 }

/-- The `k` loop of `process_input`, over the indices still to visit. -/
def or_loop {σ : Type} (os : OS σ) (or_cmds : TokenArray) :
    List Nat → Shell σ → Except Fault (Shell σ)
  | [], st => .ok st
  | k :: ks, st =>
    if k > 0 ∧ st.last_status = 0 then .ok st
    else
      match arr_get or_cmds k with
      | none => .error Fault.null_token
      | some or_cmd =>
        match or_loop_body os or_cmd st with
        | .error f => .error f
        | .ok st1 => or_loop os or_cmds ks st1

/-- The `j` loop of `process_input`, over the indices still to visit. -/
def and_loop {σ : Type} (os : OS σ) (and_cmds : TokenArray) :
    List Nat → Shell σ → Except Fault (Shell σ)
  | [], st => .ok st
  | j :: js, st =>
    if j > 0 ∧ st.last_status ≠ 0 then .ok st
    else
      match arr_get and_cmds j with
      | none => .error Fault.null_token
      | some and_cmd =>
        let t := tokenize_input and_cmd fresh_tokens ['|', '|']
        match or_loop os t.2 (List.range t.1) st with
        | .error f => .error f
        | .ok st1 => and_loop os and_cmds js st1

/-- The `i` loop of `process_input`, over the indices still to visit. -/
def semicolon_loop {σ : Type} (os : OS σ) (semicolon_cmds : TokenArray) :
    List Nat → Shell σ → Except Fault (Shell σ)
  | [], st => .ok st
  | i :: is, st =>
    match arr_get semicolon_cmds i with
    | none => .error Fault.null_token
    | some stmt =>
      let t := tokenize_input stmt fresh_tokens ['&', '&']
      match and_loop os t.2 (List.range t.1) st with
      | .error f => .error f
      | .ok st1 => semicolon_loop os semicolon_cmds is st1

/-- Source `process_input`. -/
def process_input {σ : Type} (os : OS σ) (input : CStr) (st : Shell σ) : Except Fault (Shell σ) :=
  let t := tokenize_input input fresh_tokens [';']
  semicolon_loop os t.2 (List.range t.1) st

/-! ## The loops of `process_input` in list form

The same loops, run over the list of tokens instead of the array and the index
range; `process_input_eq_statements` and the lemmas before it prove that they
compute what the array loops compute. -/

/-- The `k` loop over the tokens still to visit; `k` is the index of the first. -/
def or_chain {σ : Type} (os : OS σ) : Nat → List CStr → Shell σ → Except Fault (Shell σ)
  | _, [], st => .ok st
  | k, c :: cs, st =>
    if k > 0 ∧ st.last_status = 0 then .ok st
    else
      match or_loop_body os c st with
      | .error f => .error f
      | .ok st1 => or_chain os (k + 1) cs st1

/-- The `j` loop over the tokens still to visit; `j` is the index of the first. -/
def and_chain {σ : Type} (os : OS σ) : Nat → List CStr → Shell σ → Except Fault (Shell σ)
  | _, [], st => .ok st
  | j, m :: ms, st =>
    if j > 0 ∧ st.last_status ≠ 0 then .ok st
    else
      match or_chain os 0 ((delimiter_free_runs ['|', '|'] m).take (MAX_TOKENS - 1)) st with
      | .error f => .error f
      | .ok st1 => and_chain os (j + 1) ms st1

/-- The `i` loop over the statements still to visit. -/
def statements {σ : Type} (os : OS σ) : List CStr → Shell σ → Except Fault (Shell σ)
  | [], st => .ok st
  | s :: ss, st =>
    match and_chain os 0 ((delimiter_free_runs ['&', '&'] s).take (MAX_TOKENS - 1)) st with
    | .error f => .error f
    | .ok st1 => statements os ss st1

/-- A simple command: a text with none of the characters `;`, `&`, `|`. -/
def operator_free (c : CStr) : Bool := c.all (fun x => x != ';' && x != '&' && x != '|')

/-- A text made of characters of `" \t\r\n"` only (the empty text included). -/
def blank (c : CStr) : Bool := c.all (is_delim whitespace)

/-- The events of a call of `run_command`: the system call of a builtin, the
fork of an `exec` child, the wait for it. -/
def run_event : Event → Prop
  | .chdir _ _ => True
  | .getcwd _ => True
  | .fork (.exec _) _ => True
  | .waitpid _ _ => True
  | _ => False

/-- The events of a run in which every pipe split gives one segment: those of
`run_command`, and background-marker checks with `pipe_count = 1` that read a
non-empty string.  No `pipe` call and no fork of a pipeline stage is among them. -/
def line_event : Event → Prop
  | .bg_check n cmd => n = 1 ∧ cmd ≠ []
  | e => run_event e

/-- The run from `st` ended without a fault and its trace is that of `st`
followed by events of the kind `line_event`. -/
def checks_in_bounds {σ : Type} (st : Shell σ) (r : Except Fault (Shell σ)) : Prop :=
  ∃ st' new, r = .ok st' ∧ st'.log = st.log ++ new ∧ ∀ e ∈ new, line_event e

/-- Exit behaviour of the programs of the test world, by program name. -/
def demo_outcome : List CStr → Termination
  | name :: _ =>
    if name = ['t', 'r', 'u', 'e'] then .exited 0
    else if name = ['e', 'c', 'h', 'o'] then .exited 0
    else if name = ['f', 'a', 'l', 's', 'e'] then .exited 1
    else if name = ['e', 'x', 'i', 't', '7'] then .exited 7
    else if name = ['c', 'r', 'a', 's', 'h'] then .signaled 11 true
    else .exited 1
  | [] => .exited 1

/-- The test world: the children forked so far (child number `n` has pid
`n + 1`).  `fork` and `pipe` succeed, `chdir` fails, `getcwd` succeeds, and
every `waitpid` finds its child. -/
def demo_os : OS (List Child) where
  getenv_HOME := fun _ => none
  chdir := fun _ w => (-1, w)
  getcwd := fun _ => true
  pipe := fun w => (0, w)
  fork := fun child w => ((w.length : Int) + 1, w ++ [child])
  waitpid := fun pid w =>
    match w.get? (pid.toNat - 1) with
    | some (Child.exec args) => (some (demo_outcome args), w)
    | some (Child.stage _ _ (some command)) =>
      (some (demo_outcome (delimiter_free_runs whitespace command)), w)
    | _ => (some (.exited 1), w)
  uninit_status := fun _ => 0

/-- The test world on the schedule where each child ends, and `handle_zombie`
reaps it, before the interpreter calls `waitpid`: the call fails, and the
uninitialised `status` holds the bits `0x2a00`. -/
def reaped_os : OS (List Child) :=
  { demo_os with waitpid := fun _ w => (none, w), uninit_status := fun _ => 10752 }

/-- The interpreter with `last_status = status`, nothing forked, empty trace. -/
def demo_init (status : Int) : Shell (List Child) :=
  { last_status := status, world := [], log := [] }

/-- The trace of a run, `none` after a fault. -/
def trace (r : Except Fault (Shell (List Child))) : Option (List Event) :=
  match r with
  | .ok st => some st.log
  | .error _ => none

/-- The `last_status` and the programs forked by a run, `none` after a fault. -/
def summary (r : Except Fault (Shell (List Child))) : Option (Int × List Child) :=
  match r with
  | .ok st => some (st.last_status, st.world)
  | .error _ => none


/-! ## The tokenizer against its specification -/

theorem drop_length_takeWhile (p : Char → Bool) (s : CStr) :
    s.drop (s.takeWhile p).length = s.dropWhile p := by
  induction s with
  | nil => rfl
  | cons c s ih =>
    cases h : p c
    · rw [List.takeWhile_cons_of_neg (by simp [h]), List.dropWhile_cons_of_neg (by simp [h])]
      rfl
    · rw [List.takeWhile_cons_of_pos h, List.dropWhile_cons_of_pos h]
      exact ih

theorem take_length_takeWhile (p : Char → Bool) (s : CStr) :
    s.take (s.takeWhile p).length = s.takeWhile p := by
  induction s with
  | nil => rfl
  | cons c s ih =>
    cases h : p c
    · rw [List.takeWhile_cons_of_neg (by simp [h])]
      rfl
    · rw [List.takeWhile_cons_of_pos h]
      simp only [List.length_cons, List.take_succ_cons, ih]

theorem runs_nil (delim : CStr) : delimiter_free_runs delim [] = [] := by
  simp [delimiter_free_runs, List.splitOnP_nil]

theorem runs_cons_delim (delim : CStr) (c : Char) (s : CStr) (h : is_delim delim c = true) :
    delimiter_free_runs delim (c :: s) = delimiter_free_runs delim s := by
  simp [delimiter_free_runs, List.splitOnP_cons, h]

theorem runs_dropWhile (delim s : CStr) :
    delimiter_free_runs delim (s.dropWhile (is_delim delim))
      = delimiter_free_runs delim s := by
  induction s with
  | nil => rfl
  | cons c s ih =>
    cases h : is_delim delim c
    · rw [List.dropWhile_cons_of_neg (by simp [h])]
    · rw [List.dropWhile_cons_of_pos h, ih, runs_cons_delim delim c s h]

/-- The split of a list at the elements satisfying `p`, head first. -/
theorem splitOnP_head_tail (p : Char → Bool) (s : CStr) :
    s.splitOnP p = s.takeWhile (fun x => !p x)
      :: (match s.dropWhile (fun x => !p x) with
          | [] => []
          | _ :: r => r.splitOnP p) := by
  induction s with
  | nil => simp [List.splitOnP_nil]
  | cons c s ih =>
    rw [List.splitOnP_cons]
    cases h : p c
    · rw [ih]
      simp [h]
    · simp [h]

/-- A string that starts with a non-delimiter: its first run is its longest
delimiter-free prefix, the other runs are those of what follows the delimiter
that ends the prefix. -/
theorem runs_cons_token (delim : CStr) (c : Char) (s : CStr) (h : is_delim delim c = false) :
    delimiter_free_runs delim (c :: s)
      = (c :: s.takeWhile (fun x => !is_delim delim x))
          :: delimiter_free_runs delim ((s.dropWhile (fun x => !is_delim delim x)).drop 1) := by
  unfold delimiter_free_runs
  rw [splitOnP_head_tail]
  simp only [List.takeWhile_cons, List.dropWhile_cons, h, Bool.not_false, if_true]
  rw [List.filter_cons_of_pos (by simp)]
  congr 1
  rcases List.dropWhile (fun x => !is_delim delim x) s with _ | ⟨d, r⟩
  · simp [List.splitOnP_nil]
  · simp

/-- One call of `strtok_r` against the specification: it returns `NULL` exactly
when no run is left, and otherwise the first run, leaving the scan position
where the remaining runs are those of the rest. -/
theorem strtok_r_runs (s delim : CStr) :
    delimiter_free_runs delim s =
      match strtok_r s delim with
      | (none, _) => []
      | (some t, r) => t :: delimiter_free_runs delim r := by
  cases s with
  | nil => simp [strtok_r, runs_nil]
  | cons a s =>
    simp only [strtok_r, strspn, strcspn]
    rw [drop_length_takeWhile, ← runs_dropWhile]
    rcases h1 : List.dropWhile (is_delim delim) (a :: s) with _ | ⟨c, s1⟩
    · simp [runs_nil]
    · have hc : is_delim delim c = false := by
        have := List.head_dropWhile_not (is_delim delim) (a :: s) (by rw [h1]; simp)
        simpa [h1] using this
      simp only []
      rw [drop_length_takeWhile, take_length_takeWhile, runs_cons_token delim c s1 hc]
      simp only [List.dropWhile_cons, List.takeWhile_cons, hc, Bool.not_false, if_true]
      rcases h2 : List.dropWhile (fun x => !is_delim delim x) s1 with _ | ⟨d, rest⟩
      · simp only [List.drop_nil, runs_nil]
        have : List.takeWhile (fun x => !is_delim delim x) s1 = s1 := by
          have := List.takeWhile_append_dropWhile (fun x => !is_delim delim x) s1
          rw [h2, List.append_nil] at this
          exact this
        rw [this]
      · simp

theorem set_length_append (pre : TokenArray) (x y : Option CStr) (post : TokenArray) :
    (pre ++ x :: post).set pre.length y = (pre ++ [y]) ++ post := by
  induction pre with
  | nil => rfl
  | cons a pre ih => simp only [List.cons_append, List.length_cons, List.set_cons_succ, ih]

/-- The loop of `tokenize_input`, started with `count = pre.length` entries
already stored: it stores the first `room` runs after them. -/
theorem tokenize_loop_runs (delim : CStr) (room : Nat) (s : CStr) (pre post : TokenArray)
    (h : min room (delimiter_free_runs delim s).length ≤ post.length) :
    tokenize_loop delim room (strtok_r s delim).1 (strtok_r s delim).2 pre.length (pre ++ post)
      = (pre.length + min room (delimiter_free_runs delim s).length,
          pre ++ ((delimiter_free_runs delim s).take room).map some
            ++ post.drop (min room (delimiter_free_runs delim s).length)) := by
  induction room generalizing s pre post with
  | zero => simp [tokenize_loop]
  | succ room ih =>
    have hs := strtok_r_runs s delim
    rcases hr : strtok_r s delim with ⟨tok, r⟩
    rw [hr] at hs
    cases tok with
    | none =>
      simp only at hs
      simp [tokenize_loop, hs]
    | some t =>
      simp only at hs
      rw [hs] at h ⊢
      simp only [List.length_cons] at h
      cases post with
      | nil => simp at h
      | cons x post =>
        simp only [tokenize_loop]
        rw [set_length_append]
        have hlen : pre.length + 1 = (pre ++ [some t]).length := by simp
        rw [hlen, ih r (pre ++ [some t]) post (by simp only [List.length_cons] at h; omega)]
        simp only [List.length_append, List.length_cons, List.length_nil, List.take_succ_cons,
          List.map_cons, List.append_assoc, List.cons_append, List.nil_append,
          Nat.add_min_add_right, List.drop_succ_cons]
        congr 1
        omega

/-- The result of `tokenize_input` on an array of `MAX_TOKENS` entries: the
count is `min 127 n`, the first `count` entries are the first `count` runs, the
next entry is `NULL`, the entries after it are untouched. -/
theorem tokenize_input_runs (input delim : CStr) (tokens : TokenArray)
    (hlen : tokens.length = MAX_TOKENS) :
    tokenize_input input tokens delim
      = (min (MAX_TOKENS - 1) (delimiter_free_runs delim input).length,
          ((delimiter_free_runs delim input).take (MAX_TOKENS - 1)).map some
            ++ none :: tokens.drop (min (MAX_TOKENS - 1) (delimiter_free_runs delim input).length + 1)) := by
  have h := tokenize_loop_runs delim (MAX_TOKENS - 1) input [] tokens
    (by rw [hlen]; simp only [MAX_TOKENS]; omega)
  simp only [List.length_nil, List.nil_append, Nat.zero_add] at h
  simp only [tokenize_input]
  rw [h]
  simp only [Prod.mk.injEq, true_and]
  set m := min (MAX_TOKENS - 1) (delimiter_free_runs delim input).length with hm
  have hl : (((delimiter_free_runs delim input).take (MAX_TOKENS - 1)).map some).length = m := by
    simp [hm]
  have hd : tokens.drop m ≠ [] := by
    intro h0
    have := congrArg List.length h0
    simp only [List.length_drop, hlen, List.length_nil, MAX_TOKENS] at this
    have : m ≤ 127 := by simp only [hm, MAX_TOKENS]; omega
    omega
  rcases hdm : tokens.drop m with _ | ⟨x, rest⟩
  · exact absurd hdm hd
  · have hrest : rest = tokens.drop (m + 1) := by
      have := congrArg List.tail hdm
      simp only [List.tail_drop, List.tail_cons] at this
      exact this.symm
    have := set_length_append (((delimiter_free_runs delim input).take (MAX_TOKENS - 1)).map some)
      x none rest
    rw [hl] at this
    rw [this, hrest]
    simp

theorem fresh_tokens_length : fresh_tokens.length = MAX_TOKENS := by
  simp [fresh_tokens]

/-! ## Properties of the runs -/

theorem runs_eq_single (delim s : CStr) (hne : s ≠ [])
    (h : ∀ c ∈ s, is_delim delim c = false) : delimiter_free_runs delim s = [s] := by
  unfold delimiter_free_runs
  rw [List.splitOnP_eq_single (is_delim delim) s (fun x hx => by simp [h x hx])]
  cases s with
  | nil => exact absurd rfl hne
  | cons a s => rfl

theorem splitOnP_append_delim (p : Char → Bool) (a : CStr) (d : Char) (b : CStr)
    (hd : p d = true) : (a ++ d :: b).splitOnP p = a.splitOnP p ++ b.splitOnP p := by
  induction a with
  | nil => simp [List.splitOnP_cons, hd, List.splitOnP_nil]
  | cons x a ih =>
    rw [List.cons_append, List.splitOnP_cons, List.splitOnP_cons, ih]
    cases hx : p x
    · rcases hsp : List.splitOnP p a with _ | ⟨h1, t1⟩
      · exact absurd hsp (List.splitOnP_ne_nil _ _)
      · simp
    · simp

/-- A delimiter between two strings separates their runs. -/
theorem runs_append_delim (delim a : CStr) (d : Char) (b : CStr) (hd : is_delim delim d = true) :
    delimiter_free_runs delim (a ++ d :: b)
      = delimiter_free_runs delim a ++ delimiter_free_runs delim b := by
  unfold delimiter_free_runs
  rw [splitOnP_append_delim _ _ _ _ hd, List.filter_append]

/-- Every run is non-empty and free of delimiter characters. -/
theorem runs_mem (delim : CStr) (s t : CStr) (ht : t ∈ delimiter_free_runs delim s) :
    t ≠ [] ∧ ∀ c ∈ t, is_delim delim c = false := by
  obtain ⟨n, hn⟩ : ∃ n, s.length = n := ⟨_, rfl⟩
  induction n using Nat.strong_induction_on generalizing s with
  | _ n ih =>
    cases s with
    | nil => simp [runs_nil] at ht
    | cons c s =>
      cases hc : is_delim delim c
      · rw [runs_cons_token delim c s hc] at ht
        rcases List.mem_cons.1 ht with h | h
        · subst h
          refine ⟨by simp, ?_⟩
          intro x hx
          rcases List.mem_cons.1 hx with h1 | h1
          · rw [h1]; exact hc
          · have := List.mem_takeWhile_imp h1
            simpa using this
        · refine ih _ ?_ _ h rfl
          subst hn
          have h1 : (List.drop 1 (List.dropWhile (fun x => !is_delim delim x) s)).length
              ≤ s.length := by
            rw [List.length_drop]
            have := List.Sublist.length_le
              ((List.dropWhile_suffix (fun x => !is_delim delim x) (l := s)).sublist)
            omega
          simp only [List.length_cons]
          omega
      · rw [runs_cons_delim delim c s hc] at ht
        exact ih _ (by subst hn; simp) _ ht rfl

theorem is_delim_single (d c : Char) : is_delim [d] c = decide (c = d) := by
  simp [is_delim]

theorem is_delim_double (d c : Char) : is_delim [d, d] c = decide (c = d) := by
  simp [is_delim]

/-! ## The array loops and the list loops agree -/

theorem arr_get_tokens (toks : List CStr) (rest : TokenArray) (i : Nat) (t : CStr)
    (h : toks.get? i = some t) : arr_get (toks.map some ++ none :: rest) i = some t := by
  unfold arr_get
  have hi : i < toks.length := by
    rcases Nat.lt_or_ge i toks.length with h1 | h1
    · exact h1
    · rw [List.get?_eq_none.2 h1] at h
      cases h
  rw [List.get?_eq_getElem?, List.getElem?_append_left (by simpa using hi)]
  rw [List.get?_eq_getElem?] at h
  simp [h]

theorem drop_eq_cons_get (toks : List CStr) (k n : Nat) (h : k + (n + 1) = toks.length) :
    ∃ t, toks.get? k = some t ∧ toks.drop k = t :: toks.drop (k + 1) := by
  have hk : k < toks.length := by omega
  refine ⟨toks[k], ?_, ?_⟩
  · rw [List.get?_eq_getElem?, List.getElem?_eq_getElem hk]
  · exact List.drop_eq_getElem_cons hk

theorem or_loop_eq_chain {σ : Type} (os : OS σ) (toks : List CStr) (rest : TokenArray)
    (n k : Nat) (st : Shell σ) (h : k + n = toks.length) :
    or_loop os (toks.map some ++ none :: rest) (List.range' k n) st
      = or_chain os k (toks.drop k) st := by
  induction n generalizing k st with
  | zero =>
    rw [List.drop_eq_nil_of_le (by omega)]
    rfl
  | succ n ih =>
    obtain ⟨t, hget, hdrop⟩ := drop_eq_cons_get toks k n h
    rw [List.range'_succ, hdrop]
    simp only [or_loop, or_chain, arr_get_tokens toks rest k t hget]
    split
    · rfl
    · cases or_loop_body os t st with
      | error f => rfl
      | ok st1 => exact ih (k + 1) st1 (by omega)

theorem and_loop_eq_chain {σ : Type} (os : OS σ) (toks : List CStr) (rest : TokenArray)
    (n k : Nat) (st : Shell σ) (h : k + n = toks.length) :
    and_loop os (toks.map some ++ none :: rest) (List.range' k n) st
      = and_chain os k (toks.drop k) st := by
  induction n generalizing k st with
  | zero =>
    rw [List.drop_eq_nil_of_le (by omega)]
    rfl
  | succ n ih =>
    obtain ⟨t, hget, hdrop⟩ := drop_eq_cons_get toks k n h
    rw [List.range'_succ, hdrop]
    simp only [and_loop, and_chain, arr_get_tokens toks rest k t hget]
    split
    · rfl
    · rw [tokenize_input_runs t ['|', '|'] fresh_tokens fresh_tokens_length]
      simp only []
      rw [List.range_eq_range', or_loop_eq_chain os _ _ _ 0 st (by simp), List.drop_zero]
      cases or_chain os 0 ((delimiter_free_runs ['|', '|'] t).take (MAX_TOKENS - 1)) st with
      | error f => rfl
      | ok st1 => exact ih (k + 1) st1 (by omega)

theorem semicolon_loop_eq_statements {σ : Type} (os : OS σ) (toks : List CStr)
    (rest : TokenArray) (n k : Nat) (st : Shell σ) (h : k + n = toks.length) :
    semicolon_loop os (toks.map some ++ none :: rest) (List.range' k n) st
      = statements os (toks.drop k) st := by
  induction n generalizing k st with
  | zero =>
    rw [List.drop_eq_nil_of_le (by omega)]
    rfl
  | succ n ih =>
    obtain ⟨t, hget, hdrop⟩ := drop_eq_cons_get toks k n h
    rw [List.range'_succ, hdrop]
    simp only [semicolon_loop, statements, arr_get_tokens toks rest k t hget]
    rw [tokenize_input_runs t ['&', '&'] fresh_tokens fresh_tokens_length]
    simp only []
    rw [List.range_eq_range', and_loop_eq_chain os _ _ _ 0 st (by simp), List.drop_zero]
    cases and_chain os 0 ((delimiter_free_runs ['&', '&'] t).take (MAX_TOKENS - 1)) st with
    | error f => rfl
    | ok st1 => exact ih (k + 1) st1 (by omega)

/-- Source `process_input` is the list-form evaluation of the first 127 statements. -/
theorem process_input_eq_statements {σ : Type} (os : OS σ) (input : CStr) (st : Shell σ) :
    process_input os input st
      = statements os ((delimiter_free_runs [';'] input).take (MAX_TOKENS - 1)) st := by
  unfold process_input
  rw [tokenize_input_runs input [';'] fresh_tokens fresh_tokens_length]
  simp only []
  rw [List.range_eq_range', semicolon_loop_eq_statements os _ _ _ 0 st (by simp), List.drop_zero]

/-! ## One member of an OR-group -/

theorem operator_free_mem (c : CStr) (h : operator_free c = true) (x : Char) (hx : x ∈ c) :
    x ≠ ';' ∧ x ≠ '&' ∧ x ≠ '|' := by
  have := List.all_eq_true.1 h x hx
  simpa [and_assoc] using this

theorem tokenize_input_single (c delim : CStr) (hne : c ≠ [])
    (h : ∀ x ∈ c, is_delim delim x = false) :
    tokenize_input c fresh_tokens delim = (1, some c :: none :: fresh_tokens.drop 2) := by
  rw [tokenize_input_runs c delim fresh_tokens fresh_tokens_length, runs_eq_single delim c hne h]
  rfl

/-- The body of the `k` loop on a non-empty token without `|`: the pipe split
gives the token itself (`pipe_count = 1`), and the token goes to `run_command`,
without its last character and in the background when that character is `&`. -/
theorem or_loop_body_single {σ : Type} (os : OS σ) (c : CStr) (st : Shell σ) (hne : c ≠ [])
    (h : ∀ x ∈ c, x ≠ '|') :
    or_loop_body os c st =
      .ok { (run_command os
              (if c.get? (c.length - 1) = some '&' then c.take (c.length - 1) else c)
              (decide (c.get? (c.length - 1) = some '&'))
              { st with log := st.log ++ [Event.bg_check 1 c] }).2 with
            last_status := (run_command os
              (if c.get? (c.length - 1) = some '&' then c.take (c.length - 1) else c)
              (decide (c.get? (c.length - 1) = some '&'))
              { st with log := st.log ++ [Event.bg_check 1 c] }).1 } := by
  have htok := tokenize_input_single c ['|'] hne
    (fun x hx => by rw [is_delim_single]; simpa using h x hx)
  have hlen : 0 < c.length := List.length_pos.2 hne
  have hdec : decide (c.length > 0) = true := by simpa using hlen
  have hg : arr_get (some c :: none :: List.drop 2 fresh_tokens) (1 - 1) = some c := rfl
  unfold or_loop_body
  simp only [htok, hg, Nat.one_ne_zero, if_false, gt_iff_lt, Nat.lt_irrefl]
  by_cases hb : c.get? (c.length - 1) = some '&'
  · have hbeq : (c.get? (c.length - 1) == some '&') = true := by rw [hb]; rfl
    simp only [hdec, hbeq, Bool.true_and, if_pos hb, if_true, decide_eq_true hb]
    rfl
  · have hbeq : (c.get? (c.length - 1) == some '&') = false := by
      cases hq : c.get? (c.length - 1) with
      | none => rfl
      | some q =>
        have hq' : q ≠ '&' := fun e => hb (by rw [hq, e])
        simp [hq']
    simp only [hdec, hbeq, Bool.true_and, if_neg hb, decide_eq_false hb]
    rfl

theorem or_loop_body_simple {σ : Type} (os : OS σ) (c : CStr) (st : Shell σ) (hne : c ≠ [])
    (h : ∀ x ∈ c, x ≠ '|') (ha : ∀ x ∈ c, x ≠ '&') :
    or_loop_body os c st =
      .ok { (run_command os c false { st with log := st.log ++ [Event.bg_check 1 c] }).2 with
            last_status :=
              (run_command os c false { st with log := st.log ++ [Event.bg_check 1 c] }).1 } := by
  have hb : ¬ c.get? (c.length - 1) = some '&' := by
    intro hb
    exact ha '&' (List.get?_mem hb) rfl
  rw [or_loop_body_single os c st hne h]
  simp only [if_neg hb, decide_eq_false hb]

/-- The outcome of `run_command` depends on the command through its whitespace-separated words only. -/
theorem run_command_congr {σ : Type} (os : OS σ) (c c' : CStr) (bg : Bool) (st : Shell σ)
    (h : delimiter_free_runs whitespace c = delimiter_free_runs whitespace c') :
    run_command os c bg st = run_command os c' bg st := by
  unfold run_command
  rw [tokenize_input_runs c whitespace fresh_tokens fresh_tokens_length,
    tokenize_input_runs c' whitespace fresh_tokens fresh_tokens_length, h]

theorem run_command_space_right {σ : Type} (os : OS σ) (c : CStr) (bg : Bool) (st : Shell σ) :
    run_command os (c ++ [' ']) bg st = run_command os c bg st := by
  apply run_command_congr
  rw [runs_append_delim whitespace c ' ' [] (by decide), runs_nil, List.append_nil]

theorem run_command_space_left {σ : Type} (os : OS σ) (c : CStr) (bg : Bool) (st : Shell σ) :
    run_command os (' ' :: c) bg st = run_command os c bg st := by
  apply run_command_congr
  rw [runs_cons_delim whitespace ' ' c (by decide)]

/-! ## Lines of two and three simple commands -/

theorem not_delim_semicolon (c : CStr) (h : operator_free c = true) :
    ∀ x ∈ c, is_delim [';'] x = false := by
  intro x hx
  rw [is_delim_single]
  simpa using (operator_free_mem c h x hx).1

theorem not_delim_amp (c : CStr) (h : operator_free c = true) :
    ∀ x ∈ c, is_delim ['&', '&'] x = false := by
  intro x hx
  rw [is_delim_double]
  simpa using (operator_free_mem c h x hx).2.1

theorem not_delim_bar (c : CStr) (h : operator_free c = true) :
    ∀ x ∈ c, is_delim ['|', '|'] x = false := by
  intro x hx
  rw [is_delim_double]
  simpa using (operator_free_mem c h x hx).2.2

theorem operator_free_append (a b : CStr) :
    operator_free (a ++ b) = (operator_free a && operator_free b) := by
  simp [operator_free, List.all_append]

theorem operator_free_cons (x : Char) (a : CStr) :
    operator_free (x :: a) = ((x != ';' && x != '&' && x != '|') && operator_free a) := by
  simp [operator_free, List.all_cons]

/-- Two non-empty delimiter-free texts joined by a doubled delimiter are the two runs. -/
theorem runs_two (delim : CStr) (d : Char) (a b : CStr) (hd : is_delim delim d = true)
    (ha : a ≠ []) (hb : b ≠ []) (hfa : ∀ x ∈ a, is_delim delim x = false)
    (hfb : ∀ x ∈ b, is_delim delim x = false) :
    delimiter_free_runs delim (a ++ d :: d :: b) = [a, b] := by
  rw [runs_append_delim delim a d _ hd, runs_cons_delim delim d b hd,
    runs_eq_single delim a ha hfa, runs_eq_single delim b hb hfb]
  rfl

/-- The OR-group of a non-empty text without `|`, `&`: the text itself, run in the foreground. -/
theorem or_chain_simple {σ : Type} (os : OS σ) (m : CStr) (st : Shell σ) (hne : m ≠ [])
    (hf : operator_free m = true) :
    or_chain os 0 ((delimiter_free_runs ['|', '|'] m).take (MAX_TOKENS - 1)) st =
      .ok { (run_command os m false { st with log := st.log ++ [Event.bg_check 1 m] }).2 with
            last_status :=
              (run_command os m false { st with log := st.log ++ [Event.bg_check 1 m] }).1 } := by
  rw [runs_eq_single _ m hne (not_delim_bar m hf)]
  have ht : List.take (MAX_TOKENS - 1) [m] = [m] := rfl
  rw [ht]
  simp only [or_chain]
  rw [or_loop_body_simple os m st hne (fun x hx => (operator_free_mem m hf x hx).2.2)
    (fun x hx => (operator_free_mem m hf x hx).2.1)]
  simp

theorem statements_single {σ : Type} (os : OS σ) (line : CStr) (st : Shell σ)
    (hne : line ≠ []) (hf : ∀ x ∈ line, is_delim [';'] x = false) :
    process_input os line st
      = and_chain os 0 ((delimiter_free_runs ['&', '&'] line).take (MAX_TOKENS - 1)) st := by
  rw [process_input_eq_statements, runs_eq_single _ line hne hf]
  have ht : List.take (MAX_TOKENS - 1) [line] = [line] := rfl
  rw [ht]
  simp only [statements]
  cases and_chain os 0 ((delimiter_free_runs ['&', '&'] line).take (MAX_TOKENS - 1)) st <;> rfl

theorem take_two (a b : CStr) : List.take (MAX_TOKENS - 1) [a, b] = [a, b] := rfl

theorem take_one (a : CStr) : List.take (MAX_TOKENS - 1) [a] = [a] := rfl

theorem all_ne_of_operator_free (c : CStr) (h : operator_free c = true) :
    c.all (fun x => x != ';') = true ∧ c.all (fun x => x != '&') = true
      ∧ c.all (fun x => x != '|') = true := by
  refine ⟨List.all_eq_true.2 ?_, List.all_eq_true.2 ?_, List.all_eq_true.2 ?_⟩
  · intro x hx; simpa using (operator_free_mem c h x hx).1
  · intro x hx; simpa using (operator_free_mem c h x hx).2.1
  · intro x hx; simpa using (operator_free_mem c h x hx).2.2

theorem not_delim_of_all (d : Char) (l : CStr) (h : l.all (fun x => x != d) = true) :
    (∀ x ∈ l, is_delim [d] x = false) ∧ (∀ x ∈ l, is_delim [d, d] x = false) := by
  constructor
  · intro x hx
    rw [is_delim_single]
    simpa using List.all_eq_true.1 h x hx
  · intro x hx
    rw [is_delim_double]
    simpa using List.all_eq_true.1 h x hx

/-! ## What `run_command` reads and writes -/

theorem no_check_append (P : Event → Prop) (new extra : List Event)
    (h1 : ∀ e ∈ new, P e) (h2 : ∀ e ∈ extra, P e) : ∀ e ∈ new ++ extra, P e := by
  intro e he
  rcases List.mem_append.1 he with h | h
  · exact h1 e h
  · exact h2 e h

theorem execute_builtin_log {σ : Type} (os : OS σ) (args : TokenArray) (st : Shell σ) :
    ∃ new, (execute_builtin os args st).2.log = st.log ++ new
      ∧ ∀ e ∈ new, run_event e := by
  unfold execute_builtin
  cases arr_get args 0 with
  | none => exact ⟨[], by simp⟩
  | some a0 =>
    simp only []
    split_ifs
    · exact ⟨[_], rfl, by simp [run_event]⟩
    · exact ⟨[_], rfl, by simp [run_event]⟩
    · exact ⟨[_], rfl, by simp [run_event]⟩
    · exact ⟨[_], rfl, by simp [run_event]⟩
    · exact ⟨[], by simp⟩

theorem run_command_log {σ : Type} (os : OS σ) (c : CStr) (bg : Bool) (st : Shell σ) :
    ∃ new, (run_command os c bg st).2.log = st.log ++ new
      ∧ ∀ e ∈ new, run_event e := by
  obtain ⟨new, hnew, hP⟩ := execute_builtin_log os
    (tokenize_input c fresh_tokens whitespace).2 st
  unfold run_command
  simp only []
  cases arr_get (tokenize_input c fresh_tokens whitespace).2 0 with
  | none => exact ⟨[], by simp⟩
  | some a0 =>
    simp only []
    split_ifs
    · exact ⟨new, hnew, hP⟩
    · exact ⟨new ++ [_], by simp only [hnew, List.append_assoc]; rfl,
        no_check_append _ _ _ hP (by simp [run_event])⟩
    · exact ⟨new ++ [_], by simp only [hnew, List.append_assoc]; rfl,
        no_check_append _ _ _ hP (by simp [run_event])⟩
    · exact ⟨new ++ [_, _], by simp only [hnew, List.append_assoc]; rfl,
        no_check_append _ _ _ hP (by simp [run_event])⟩
    · exact ⟨new ++ [_, _], by simp only [hnew, List.append_assoc]; rfl,
        no_check_append _ _ _ hP (by simp [run_event])⟩

theorem line_event_of_run_event (e : Event) (h : run_event e) : line_event e := by
  cases e with
  | bg_check n cmd => exact absurd h (by simp [run_event])
  | chdir t r => exact h
  | getcwd f => exact h
  | pipe r => exact h
  | fork c p => exact h
  | waitpid p st => exact h

theorem checks_in_bounds_refl {σ : Type} (st : Shell σ) : checks_in_bounds st (.ok st) :=
  ⟨st, [], rfl, by simp, by simp⟩

theorem checks_in_bounds_trans {σ : Type} (st st1 : Shell σ) (r : Except Fault (Shell σ))
    (h1 : checks_in_bounds st (.ok st1)) (h2 : checks_in_bounds st1 r) :
    checks_in_bounds st r := by
  obtain ⟨a, new1, ha, hlog1, hc1⟩ := h1
  obtain ⟨b, new2, hb, hlog2, hc2⟩ := h2
  cases ha
  exact ⟨b, new1 ++ new2, hb, by rw [hlog2, hlog1, List.append_assoc],
    no_check_append _ _ _ hc1 hc2⟩

theorem or_loop_body_safe {σ : Type} (os : OS σ) (c : CStr) (st : Shell σ) (hne : c ≠ [])
    (h : ∀ x ∈ c, x ≠ '|') : checks_in_bounds st (or_loop_body os c st) := by
  rw [or_loop_body_single os c st hne h]
  obtain ⟨new, hnew, hP⟩ := run_command_log os
    (if c.get? (c.length - 1) = some '&' then c.take (c.length - 1) else c)
    (decide (c.get? (c.length - 1) = some '&'))
    { st with log := st.log ++ [Event.bg_check 1 c] }
  refine ⟨_, Event.bg_check 1 c :: new, rfl, ?_, ?_⟩
  · simp only [hnew, List.append_assoc, List.singleton_append]
  · intro e hmem
    rcases List.mem_cons.1 hmem with h1 | h1
    · subst h1
      exact ⟨rfl, hne⟩
    · exact line_event_of_run_event e (hP e h1)

theorem or_chain_safe {σ : Type} (os : OS σ) (toks : List CStr) (k : Nat) (st : Shell σ)
    (h : ∀ t ∈ toks, t ≠ [] ∧ ∀ x ∈ t, x ≠ '|') : checks_in_bounds st (or_chain os k toks st) := by
  induction toks generalizing k st with
  | nil => exact checks_in_bounds_refl st
  | cons c cs ih =>
    simp only [or_chain]
    split
    · exact checks_in_bounds_refl st
    · have hc := h c (List.mem_cons_self _ _)
      have hb := or_loop_body_safe os c st hc.1 hc.2
      obtain ⟨st1, new, heq, hrest⟩ := hb
      rw [heq]
      exact checks_in_bounds_trans st st1 _ ⟨st1, new, rfl, hrest⟩
        (ih (k + 1) st1 (fun t ht => h t (List.mem_cons_of_mem _ ht)))

theorem or_tokens_wellformed (m : CStr) :
    ∀ t ∈ (delimiter_free_runs ['|', '|'] m).take (MAX_TOKENS - 1),
      t ≠ [] ∧ ∀ x ∈ t, x ≠ '|' := by
  intro t ht
  have h := runs_mem ['|', '|'] m t (List.mem_of_mem_take ht)
  refine ⟨h.1, ?_⟩
  intro x hx hxe
  have := h.2 x hx
  rw [is_delim_double, hxe] at this
  simp at this

theorem and_chain_safe {σ : Type} (os : OS σ) (toks : List CStr) (j : Nat) (st : Shell σ) :
    checks_in_bounds st (and_chain os j toks st) := by
  induction toks generalizing j st with
  | nil => exact checks_in_bounds_refl st
  | cons m ms ih =>
    simp only [and_chain]
    split
    · exact checks_in_bounds_refl st
    · obtain ⟨st1, new, heq, hrest⟩ := or_chain_safe os _ 0 st (or_tokens_wellformed m)
      rw [heq]
      exact checks_in_bounds_trans st st1 _ ⟨st1, new, rfl, hrest⟩ (ih (j + 1) st1)

theorem statements_safe {σ : Type} (os : OS σ) (stmts : List CStr) (st : Shell σ) :
    checks_in_bounds st (statements os stmts st) := by
  induction stmts generalizing st with
  | nil => exact checks_in_bounds_refl st
  | cons m ms ih =>
    simp only [statements]
    obtain ⟨st1, new, heq, hrest⟩ := and_chain_safe os
      ((delimiter_free_runs ['&', '&'] m).take (MAX_TOKENS - 1)) 0 st
    rw [heq]
    exact checks_in_bounds_trans st st1 _ ⟨st1, new, rfl, hrest⟩ (ih st1)

/-! ## The status left by what ran before -/

/-- On every line the pipe split gives one segment each time: `process_input`
never calls `pipe` and never forks a stage of a pipeline, so `execute_pipeline`
is not reached. -/
theorem pipeline_never_started {σ : Type} (os : OS σ) (input : CStr) (st : Shell σ) :
    ∃ st' new, process_input os input st = .ok st' ∧ st'.log = st.log ++ new
      ∧ (∀ n cmd, Event.bg_check n cmd ∈ new → n = 1)
      ∧ (∀ r, Event.pipe r ∉ new)
      ∧ (∀ i n c pid, Event.fork (Child.stage i n c) pid ∉ new) := by
  rw [process_input_eq_statements]
  obtain ⟨st', new, h1, h2, h3⟩ := statements_safe os
    ((delimiter_free_runs [';'] input).take (MAX_TOKENS - 1)) st
  refine ⟨st', new, h1, h2, ?_, ?_, ?_⟩
  · intro n cmd hm
    have h4 : n = 1 ∧ cmd ≠ [] := h3 _ hm
    exact h4.1
  · intro r hm
    exact h3 _ hm
  · intro i n c pid hm
    exact h3 _ hm

theorem argv_tokens (toks : List CStr) (rest : TokenArray) :
    argv (toks.map some ++ none :: rest) = toks := by
  induction toks with
  | nil => rfl
  | cons t ts ih =>
    show t :: argv (ts.map some ++ none :: rest) = t :: ts
    rw [ih]

theorem runs_blank (delim c : CStr) (h : c.all (is_delim delim) = true) :
    delimiter_free_runs delim c = [] := by
  induction c with
  | nil => exact runs_nil delim
  | cons x c ih =>
    rw [List.all_cons, Bool.and_eq_true] at h
    rw [runs_cons_delim delim x c h.1]
    exact ih h.2

/-- Source `run_command` on a command without words: status 0, nothing done. -/
theorem run_command_blank {σ : Type} (os : OS σ) (c : CStr) (bg : Bool) (st : Shell σ)
    (h : blank c = true) : run_command os c bg st = (0, st) := by
  unfold run_command
  rw [tokenize_input_runs c whitespace fresh_tokens fresh_tokens_length, runs_blank whitespace c h]
  rfl

/-- Source `run_command` on a command whose first word is not a builtin, when
`fork` succeeds and the command is run in the foreground. -/
theorem run_command_external {σ : Type} (os : OS σ) (c : CStr) (st : Shell σ)
    (name : CStr) (rest : List CStr) (pid : Int) (w1 : σ)
    (hw : (delimiter_free_runs whitespace c).take (MAX_TOKENS - 1) = name :: rest)
    (hcd : name ≠ ['c', 'd']) (hpwd : name ≠ ['p', 'w', 'd'])
    (hfork : os.fork (Child.exec (name :: rest)) st.world = (pid, w1)) (hpid : 0 ≤ pid) :
    run_command os c false st =
      (if WIFEXITED (status_after (os.waitpid pid w1).1 (os.uninit_status w1))
        then (WEXITSTATUS (status_after (os.waitpid pid w1).1 (os.uninit_status w1)) : Int)
        else 1,
       { st with world := (os.waitpid pid w1).2,
                 log := st.log ++ [Event.fork (Child.exec (name :: rest)) pid]
                    ++ [Event.waitpid pid
                      (status_after (os.waitpid pid w1).1 (os.uninit_status w1))] }) := by
  unfold run_command
  rw [tokenize_input_runs c whitespace fresh_tokens fresh_tokens_length, hw]
  have hg : arr_get ((name :: rest).map some ++ none ::
      fresh_tokens.drop (min (MAX_TOKENS - 1) (delimiter_free_runs whitespace c).length + 1)) 0
      = some name := rfl
  have hb : execute_builtin os ((name :: rest).map some ++ none ::
      fresh_tokens.drop (min (MAX_TOKENS - 1) (delimiter_free_runs whitespace c).length + 1)) st
      = (-1, st) := by
    unfold execute_builtin
    simp only [hg, if_neg hcd, if_neg hpwd]
  simp only [hg, hb, argv_tokens, hfork]
  rw [if_neg (by decide), if_neg (not_lt.2 hpid)]
  simp only [Bool.false_eq_true, if_false]

/-- Source `process_input` on a line that is one simple command. -/
theorem process_input_simple {σ : Type} (os : OS σ) (c : CStr) (st : Shell σ) (hne : c ≠ [])
    (hc : operator_free c = true) :
    process_input os c st =
      .ok { (run_command os c false { st with log := st.log ++ [Event.bg_check 1 c] }).2 with
            last_status :=
              (run_command os c false { st with log := st.log ++ [Event.bg_check 1 c] }).1 } := by
  rw [statements_single os c st hne (not_delim_semicolon c hc),
    runs_eq_single _ c hne (not_delim_amp c hc), take_one]
  simp only [and_chain]
  rw [or_chain_simple os c st hne hc]
  simp

theorem wait_status_exited (code : Nat) :
    WIFEXITED (wait_status (.exited code)) = true
      ∧ WEXITSTATUS (wait_status (.exited code)) = code % 256 := by
  simp only [WIFEXITED, WEXITSTATUS, wait_status, beq_iff_eq]
  constructor <;> omega

theorem wait_status_signaled (sig : Nat) (core : Bool) (h1 : 0 < sig) (h2 : sig < 128) :
    WIFEXITED (wait_status (.signaled sig core)) = false := by
  simp only [WIFEXITED, wait_status, beq_eq_false_iff_ne, ne_eq]
  cases core <;> simp <;> omega

theorem WEXITSTATUS_le (status : Nat) : WEXITSTATUS status ≤ 255 := by
  unfold WEXITSTATUS
  omega

/-! ## The claims -/

/-- C1: on the line `cmd1 && cmd2` of two simple commands, `process_input` always
runs `cmd1` (in the foreground, from the initial state), runs `cmd2` exactly when
the status recorded for `cmd1` is 0, and ends with `last_status` equal to the
status of `cmd2` when it ran and to that of `cmd1` otherwise. -/
theorem and_line_short_circuit {σ : Type} (os : OS σ) (cmd1 cmd2 : CStr) (st : Shell σ)
    (h1 : operator_free cmd1 = true) (h2 : operator_free cmd2 = true) :
    process_input os (cmd1 ++ [' ', '&', '&', ' '] ++ cmd2) st =
      let r1 := run_command os cmd1 false
        { st with log := st.log ++ [Event.bg_check 1 (cmd1 ++ [' '])] }
      if r1.1 = 0 then
        let r2 := run_command os cmd2 false
          { r1.2 with last_status := r1.1, log := r1.2.log ++ [Event.bg_check 1 (' ' :: cmd2)] }
        .ok { r2.2 with last_status := r2.1 }
      else .ok { r1.2 with last_status := r1.1 } := by
  have hl : operator_free (cmd1 ++ [' ']) = true := by
    rw [operator_free_append, h1]; rfl
  have hr : operator_free (' ' :: cmd2) = true := by
    rw [operator_free_cons, h2]; rfl
  have hline : cmd1 ++ [' ', '&', '&', ' '] ++ cmd2 = (cmd1 ++ [' ']) ++ '&' :: '&' :: (' ' :: cmd2) := by
    simp
  have hsemi : ∀ x ∈ cmd1 ++ [' ', '&', '&', ' '] ++ cmd2, is_delim [';'] x = false := by
    intro x hx
    rw [is_delim_single]
    simp only [List.mem_append, List.mem_cons, List.mem_singleton, List.not_mem_nil, or_false] at hx
    rcases hx with (hx | hx | hx | hx | hx) | hx
    · simpa using (operator_free_mem cmd1 h1 x hx).1
    · subst hx; decide
    · subst hx; decide
    · subst hx; decide
    · subst hx; decide
    · simpa using (operator_free_mem cmd2 h2 x hx).1
  rw [statements_single os _ st (by simp) hsemi, hline,
    runs_two ['&', '&'] '&' _ _ (by decide) (by simp) (by simp) (not_delim_amp _ hl)
      (not_delim_amp _ hr), take_two]
  simp only [and_chain]
  rw [or_chain_simple os _ st (by simp) hl]
  simp only [run_command_space_right]
  generalize run_command os cmd1 false
    { st with log := st.log ++ [Event.bg_check 1 (cmd1 ++ [' '])] } = r1
  by_cases hz : r1.1 = 0
  · rw [or_chain_simple os _ _ (by simp) hr]
    simp [hz, run_command_space_left]
  · simp [hz]


/-- Witness of C1: `false && echo A` runs `false` only and ends with status 1. -/
theorem and_line_short_circuit_witness :
    operator_free ['f', 'a', 'l', 's', 'e'] = true ∧ operator_free ['e', 'c', 'h', 'o', ' ', 'A'] = true ∧
    summary (process_input demo_os
      (['f', 'a', 'l', 's', 'e'] ++ [' ', '&', '&', ' '] ++ ['e', 'c', 'h', 'o', ' ', 'A']) (demo_init 0))
      = some (1, [Child.exec [['f', 'a', 'l', 's', 'e']]]) := by
  refine ⟨by decide, by decide, ?_⟩
  rw [and_line_short_circuit demo_os _ _ _ (by decide) (by decide)]
  decide

/-- C2: on the line `cmd1 || cmd2` of two simple commands, `process_input` always
runs `cmd1` (in the foreground, from the initial state), runs `cmd2` exactly when
the status recorded for `cmd1` is not 0, and ends with `last_status` equal to the
status of `cmd2` when it ran and to that of `cmd1` otherwise. -/
theorem or_line_short_circuit {σ : Type} (os : OS σ) (cmd1 cmd2 : CStr) (st : Shell σ)
    (h1 : operator_free cmd1 = true) (h2 : operator_free cmd2 = true) :
    process_input os (cmd1 ++ [' ', '|', '|', ' '] ++ cmd2) st =
      let r1 := run_command os cmd1 false
        { st with log := st.log ++ [Event.bg_check 1 (cmd1 ++ [' '])] }
      if r1.1 = 0 then .ok { r1.2 with last_status := r1.1 }
      else
        let r2 := run_command os cmd2 false
          { r1.2 with last_status := r1.1, log := r1.2.log ++ [Event.bg_check 1 (' ' :: cmd2)] }
        .ok { r2.2 with last_status := r2.1 } := by
  have hl : operator_free (cmd1 ++ [' ']) = true := by
    rw [operator_free_append, h1]; rfl
  have hr : operator_free (' ' :: cmd2) = true := by
    rw [operator_free_cons, h2]; rfl
  obtain ⟨a1, a2, -⟩ := all_ne_of_operator_free cmd1 h1
  obtain ⟨b1, b2, -⟩ := all_ne_of_operator_free cmd2 h2
  have hline : cmd1 ++ [' ', '|', '|', ' '] ++ cmd2 = (cmd1 ++ [' ']) ++ '|' :: '|' :: (' ' :: cmd2) := by
    simp
  have hsemi := (not_delim_of_all ';' (cmd1 ++ [' ', '|', '|', ' '] ++ cmd2)
    (by simp only [List.all_append, a1, b1]; rfl)).1
  have hamp := (not_delim_of_all '&' (cmd1 ++ [' ', '|', '|', ' '] ++ cmd2)
    (by simp only [List.all_append, a2, b2]; rfl)).2
  rw [statements_single os _ st (by simp) hsemi, runs_eq_single _ _ (by simp) hamp, take_one]
  simp only [and_chain]
  rw [hline, runs_two ['|', '|'] '|' _ _ (by decide) (by simp) (by simp) (not_delim_bar _ hl)
      (not_delim_bar _ hr), take_two]
  simp only [or_chain]
  rw [or_loop_body_simple os _ st (by simp) (fun x hx => (operator_free_mem _ hl x hx).2.2)
    (fun x hx => (operator_free_mem _ hl x hx).2.1)]
  simp only [run_command_space_right]
  generalize run_command os cmd1 false
    { st with log := st.log ++ [Event.bg_check 1 (cmd1 ++ [' '])] } = r1
  by_cases hz : r1.1 = 0
  · simp [hz]
  · rw [or_loop_body_simple os _ _ (by simp) (fun x hx => (operator_free_mem _ hr x hx).2.2)
      (fun x hx => (operator_free_mem _ hr x hx).2.1)]
    simp [hz, run_command_space_left]

/-- Witness of C2: `false || echo B` runs both and ends with status 0. -/
theorem or_line_short_circuit_witness :
    operator_free ['f', 'a', 'l', 's', 'e'] = true ∧ operator_free ['e', 'c', 'h', 'o', ' ', 'B'] = true ∧
    summary (process_input demo_os
      (['f', 'a', 'l', 's', 'e'] ++ [' ', '|', '|', ' '] ++ ['e', 'c', 'h', 'o', ' ', 'B']) (demo_init 0))
      = some (0, [Child.exec [['f', 'a', 'l', 's', 'e']], Child.exec [['e', 'c', 'h', 'o'], ['B']]]) := by
  refine ⟨by decide, by decide, ?_⟩
  rw [or_line_short_circuit demo_os _ _ _ (by decide) (by decide)]
  decide

/-- C3, counterexample: `false && echo A || echo B` forks `false` alone (neither
`echo A` nor `echo B` is run) and ends with `last_status = 1`, not 0. -/
theorem and_or_line_counterexample :
    summary (process_input demo_os "false && echo A || echo B".toList (demo_init 0))
      = some (1, [Child.exec [['f', 'a', 'l', 's', 'e']]]) := by
  decide

/-- C3, amended: the line `a && b || c` of three simple commands is evaluated as
`a && (b || c)`.  `a` always runs; when its status is not 0 neither `b` nor `c`
runs and the final status is that of `a`; when it is 0, `b` runs, `c` runs
exactly when the status of `b` is not 0, and the final status is that of the
last command run. -/
theorem and_or_line_groups_right {σ : Type} (os : OS σ) (a b c : CStr) (st : Shell σ)
    (ha : operator_free a = true) (hb : operator_free b = true) (hc : operator_free c = true) :
    process_input os (a ++ [' ', '&', '&', ' '] ++ b ++ [' ', '|', '|', ' '] ++ c) st =
      let ra := run_command os a false
        { st with log := st.log ++ [Event.bg_check 1 (a ++ [' '])] }
      if ra.1 ≠ 0 then .ok { ra.2 with last_status := ra.1 }
      else
        let rb := run_command os b false
          { ra.2 with last_status := ra.1,
                      log := ra.2.log ++ [Event.bg_check 1 (' ' :: (b ++ [' ']))] }
        if rb.1 = 0 then .ok { rb.2 with last_status := rb.1 }
        else
          let rc := run_command os c false
            { rb.2 with last_status := rb.1, log := rb.2.log ++ [Event.bg_check 1 (' ' :: c)] }
          .ok { rc.2 with last_status := rc.1 } := by
  have hl : operator_free (a ++ [' ']) = true := by
    rw [operator_free_append, ha]; rfl
  have hm : operator_free (' ' :: (b ++ [' '])) = true := by
    rw [operator_free_cons, operator_free_append, hb]; rfl
  have hr : operator_free (' ' :: c) = true := by
    rw [operator_free_cons, hc]; rfl
  obtain ⟨a1, a2, -⟩ := all_ne_of_operator_free a ha
  obtain ⟨b1, b2, -⟩ := all_ne_of_operator_free b hb
  obtain ⟨c1, c2, -⟩ := all_ne_of_operator_free c hc
  have hline : a ++ [' ', '&', '&', ' '] ++ b ++ [' ', '|', '|', ' '] ++ c
      = (a ++ [' ']) ++ '&' :: '&' :: ((' ' :: (b ++ [' '])) ++ '|' :: '|' :: (' ' :: c)) := by
    simp
  have hsemi := (not_delim_of_all ';'
    (a ++ [' ', '&', '&', ' '] ++ b ++ [' ', '|', '|', ' '] ++ c)
    (by simp only [List.all_append, a1, b1, c1]; rfl)).1
  have hright := (not_delim_of_all '&' ((' ' :: (b ++ [' '])) ++ '|' :: '|' :: (' ' :: c))
    (by simp only [List.all_append, List.all_cons, b2, c2]; rfl)).2
  rw [statements_single os _ st (by simp) hsemi, hline,
    runs_two ['&', '&'] '&' _ _ (by decide) (by simp) (by simp) (not_delim_amp _ hl) hright,
    take_two]
  simp only [and_chain]
  rw [or_chain_simple os _ st (by simp) hl]
  simp only [run_command_space_right]
  generalize run_command os a false
    { st with log := st.log ++ [Event.bg_check 1 (a ++ [' '])] } = ra
  by_cases hz : ra.1 = 0
  · rw [runs_two ['|', '|'] '|' _ _ (by decide) (by simp) (by simp) (not_delim_bar _ hm)
      (not_delim_bar _ hr), take_two]
    simp only [or_chain]
    rw [or_loop_body_simple os _ _ (by simp) (fun x hx => (operator_free_mem _ hm x hx).2.2)
      (fun x hx => (operator_free_mem _ hm x hx).2.1)]
    simp only [run_command_space_left, run_command_space_right]
    generalize run_command os b false
      { last_status := ra.1, world := ra.2.world,
        log := ra.2.log ++ [Event.bg_check 1 (' ' :: (b ++ [' ']))] } = rb
    by_cases hy : rb.1 = 0
    · simp [hz, hy]
    · rw [or_loop_body_simple os _ _ (by simp) (fun x hx => (operator_free_mem _ hr x hx).2.2)
        (fun x hx => (operator_free_mem _ hr x hx).2.1)]
      simp [hz, hy, run_command_space_left]
  · simp [hz]

/-- Witness of the amended C3: `true && false || echo B` runs all three, status 0. -/
theorem and_or_line_groups_right_witness :
    operator_free ['t', 'r', 'u', 'e'] = true ∧ operator_free ['f', 'a', 'l', 's', 'e'] = true ∧
    operator_free ['e', 'c', 'h', 'o', ' ', 'B'] = true ∧
    summary (process_input demo_os
      (['t', 'r', 'u', 'e'] ++ [' ', '&', '&', ' '] ++ ['f', 'a', 'l', 's', 'e']
        ++ [' ', '|', '|', ' '] ++ ['e', 'c', 'h', 'o', ' ', 'B']) (demo_init 0))
      = some (0, [Child.exec [['t', 'r', 'u', 'e']], Child.exec [['f', 'a', 'l', 's', 'e']],
          Child.exec [['e', 'c', 'h', 'o'], ['B']]]) := by
  refine ⟨by decide, by decide, by decide, ?_⟩
  rw [and_or_line_groups_right demo_os _ _ _ _ (by decide) (by decide) (by decide)]
  decide

/-- C8: on an array of `MAX_TOKENS` entries, `tokenize_input` returns
`min n 127` for the `n` maximal non-empty delimiter-free substrings of the input,
stores the first `min n 127` of them in order in the first entries, stores
`NULL` in the entry after them, and leaves the array at its size; it is a total
function, so a 128th token is dropped without any error. -/
theorem tokenize_input_refines_runs (input delim : CStr) (tokens : TokenArray)
    (hlen : tokens.length = MAX_TOKENS) :
    (tokenize_input input tokens delim).1 = min (delimiter_free_runs delim input).length 127 ∧
    (tokenize_input input tokens delim).2.take (tokenize_input input tokens delim).1
      = ((delimiter_free_runs delim input).take 127).map some ∧
    (tokenize_input input tokens delim).2.get? (tokenize_input input tokens delim).1 = some none ∧
    (tokenize_input input tokens delim).2.length = MAX_TOKENS := by
  rw [tokenize_input_runs input delim tokens hlen]
  have hm : MAX_TOKENS - 1 = 127 := rfl
  simp only [hm]
  have hl : (((delimiter_free_runs delim input).take 127).map some).length
      = min 127 (delimiter_free_runs delim input).length := by simp
  refine ⟨Nat.min_comm _ _, ?_, ?_, ?_⟩
  · rw [← hl, List.take_left]
  · rw [List.get?_eq_getElem?, ← hl, List.getElem?_append_right (Nat.le_refl _)]
    simp
  · simp only [List.length_append, List.length_cons, List.length_drop, hl, hlen, MAX_TOKENS]
    omega

/-- Witness of C8: the statement `a;;b` on a cleared array. -/
theorem tokenize_input_refines_runs_witness :
    fresh_tokens.length = MAX_TOKENS ∧
    (tokenize_input ['a', ';', ';', 'b'] fresh_tokens [';']).1
      = min (delimiter_free_runs [';'] ['a', ';', ';', 'b']).length 127 ∧
    (tokenize_input ['a', ';', ';', 'b'] fresh_tokens [';']).2.take
        (tokenize_input ['a', ';', ';', 'b'] fresh_tokens [';']).1
      = ((delimiter_free_runs [';'] ['a', ';', ';', 'b']).take 127).map some ∧
    (tokenize_input ['a', ';', ';', 'b'] fresh_tokens [';']).2.get?
        (tokenize_input ['a', ';', ';', 'b'] fresh_tokens [';']).1 = some none ∧
    (tokenize_input ['a', ';', ';', 'b'] fresh_tokens [';']).2.length = MAX_TOKENS :=
  ⟨fresh_tokens_length,
    tokenize_input_refines_runs ['a', ';', ';', 'b'] [';'] fresh_tokens fresh_tokens_length⟩

/-- C9, counterexample: splitting `a ; b` at `;` returns the token `a ` first,
which ends with a blank. -/
theorem tokens_not_trimmed_counterexample :
    arr_get (tokenize_input "a ; b".toList fresh_tokens [';']).2 0 = some ['a', ' '] := by
  decide

/-- C9, amended: every token that `tokenize_input` returns is non-empty and has
no character of the delimiter string; so with the delimiter `" \t\r\n"` no
token begins or ends with one of these whitespace characters (the splits at
`;`, `&`, `|` leave the whitespace around the operators in the tokens). -/
theorem tokens_delimiter_free (input delim : CStr) (tokens : TokenArray)
    (hlen : tokens.length = MAX_TOKENS) (i : Nat) (t : CStr)
    (hi : i < (tokenize_input input tokens delim).1)
    (ht : arr_get (tokenize_input input tokens delim).2 i = some t) :
    (t ≠ [] ∧ ∀ c ∈ t, is_delim delim c = false) ∧
    (delim = whitespace →
      ∀ c, t.head? = some c ∨ t.getLast? = some c → is_delim whitespace c = false) := by
  rw [tokenize_input_runs input delim tokens hlen] at hi ht
  simp only at hi ht
  have hl : (((delimiter_free_runs delim input).take (MAX_TOKENS - 1)).map some).length
      = min (MAX_TOKENS - 1) (delimiter_free_runs delim input).length := by simp
  have hmem : t ∈ delimiter_free_runs delim input := by
    unfold arr_get at ht
    rw [List.get?_eq_getElem?, List.getElem?_append_left (by rw [hl]; exact hi),
      List.getElem?_map] at ht
    cases hq : ((delimiter_free_runs delim input).take (MAX_TOKENS - 1))[i]? with
    | none => rw [hq] at ht; cases ht
    | some q =>
      rw [hq] at ht
      have : q = t := by simpa using ht
      subst this
      exact List.mem_of_mem_take (List.getElem?_mem hq)
  have h := runs_mem delim input t hmem
  refine ⟨h, ?_⟩
  intro hd c hc
  subst hd
  rcases hc with hc | hc
  · exact h.2 c (List.mem_of_mem_head? hc)
  · exact h.2 c (List.mem_of_mem_getLast? hc)

/-- Witness of the amended C9: the first word of ` ls -l `. -/
theorem tokens_delimiter_free_witness :
    fresh_tokens.length = MAX_TOKENS ∧
    0 < (tokenize_input " ls -l ".toList fresh_tokens whitespace).1 ∧
    arr_get (tokenize_input " ls -l ".toList fresh_tokens whitespace).2 0 = some ['l', 's'] ∧
    ((['l', 's'] ≠ [] ∧ ∀ c ∈ ['l', 's'], is_delim whitespace c = false) ∧
      (whitespace = whitespace →
        ∀ c, ['l', 's'].head? = some c ∨ ['l', 's'].getLast? = some c
          → is_delim whitespace c = false)) :=
  ⟨fresh_tokens_length, by decide, by decide,
    tokens_delimiter_free " ls -l ".toList whitespace fresh_tokens fresh_tokens_length 0
      ['l', 's'] (by decide) (by decide)⟩

/-- C10: for every input line (and every operating system and initial state),
`process_input` ends without reaching the out-of-range or null-pointer branch,
and each time it reached the background-marker check, `pipe_count` was at least
1 and the string read from `pipe_cmds[pipe_count - 1]` was non-empty. -/
theorem background_check_in_bounds {σ : Type} (os : OS σ) (input : CStr) (st : Shell σ) :
    ∃ st' new, process_input os input st = .ok st' ∧ st'.log = st.log ++ new
      ∧ ∀ n cmd, Event.bg_check n cmd ∈ new → 1 ≤ n ∧ cmd ≠ [] := by
  rw [process_input_eq_statements]
  obtain ⟨st', new, h1, h2, h3⟩ := statements_safe os
    ((delimiter_free_runs [';'] input).take (MAX_TOKENS - 1)) st
  refine ⟨st', new, h1, h2, fun n cmd hm => ?_⟩
  have h4 : n = 1 ∧ cmd ≠ [] := h3 _ hm
  exact ⟨Nat.le_of_eq h4.1.symm, h4.2⟩

/-- C4, the code at a failing input: the line `true | false | exit7` is run as
the OR-group `true || false || exit7`.  Only `true` is forked, by `run_command`
(no stage of a pipeline is), and `last_status` ends at 0, not at the 7 of the
last command. -/
theorem pipe_line_runs_as_or_group :
    summary (process_input demo_os "true | false | exit7".toList (demo_init 0))
      = some (0, [Child.exec [['t', 'r', 'u', 'e']]]) := by
  decide

/-- C5, the code at a failing input: on the line `exit7 &` the `&` is consumed
by the split at `&&`, the background-marker check reads `exit7 `, and the
command is run in the foreground: the interpreter waits for the child and
`last_status` ends at the child's exit code 7, not at 0. -/
theorem background_marker_lost :
    trace (process_input demo_os "exit7 &".toList (demo_init 0))
      = some [Event.bg_check 1 ['e', 'x', 'i', 't', '7', ' '],
          Event.fork (Child.exec [['e', 'x', 'i', 't', '7']]) 1,
          Event.waitpid 1 1792] ∧
    summary (process_input demo_os "exit7 &".toList (demo_init 0))
      = some (7, [Child.exec [['e', 'x', 'i', 't', '7']]]) := by
  decide

/-- C6, counterexample.  On the schedule where the child `exit7` (created by a
successful `fork`, exiting with code 7) has been reaped by `handle_zombie` before
`run_command` waits for it, `waitpid` fails, its return value is not looked at,
and `last_status` ends at 42, read from the uninitialised `status`.  And the
empty line records nothing: `last_status` stays at 3. -/
theorem single_command_status_counterexample :
    demo_outcome [['e', 'x', 'i', 't', '7']] = .exited 7 ∧
    summary (process_input reaped_os "exit7".toList (demo_init 3))
      = some (42, [Child.exec [['e', 'x', 'i', 't', '7']]]) ∧
    summary (process_input demo_os [] (demo_init 3)) = some (3, []) := by
  decide

/-- C6, amended: a line that is one simple command whose first word is not a
builtin, whose `fork` succeeds and whose `waitpid` reports the termination of
the child, leaves in `last_status` a value in 0..255: the exit code of the child
(modulo 256) when it exited, 1 when a signal ended it.  A command without words
makes `run_command` return 0 without any system call, so a non-empty line of
blanks leaves `last_status = 0` with nothing forked; the empty line runs no
command and leaves `last_status` as it was. -/
theorem single_command_status {σ : Type} (os : OS σ) (c : CStr) (st : Shell σ)
    (hc : operator_free c = true) :
    (∀ name rest pid w1 t w2,
      (delimiter_free_runs whitespace c).take 127 = name :: rest →
      name ≠ ['c', 'd'] → name ≠ ['p', 'w', 'd'] →
      os.fork (Child.exec (name :: rest)) st.world = (pid, w1) → 0 ≤ pid →
      os.waitpid pid w1 = (some t, w2) →
      ∃ st', process_input os c st = .ok st' ∧ st'.world = w2 ∧
        0 ≤ st'.last_status ∧ st'.last_status ≤ 255 ∧
        (∀ code, t = .exited code → st'.last_status = ((code % 256 : Nat) : Int)) ∧
        (∀ sig core, t = .signaled sig core → 0 < sig → sig < 128 → st'.last_status = 1)) ∧
    (blank c = true →
      (∀ bg, run_command os c bg st = (0, st)) ∧
      (c ≠ [] → process_input os c st
        = .ok { st with last_status := 0, log := st.log ++ [Event.bg_check 1 c] })) ∧
    process_input os [] st = .ok st := by
  refine ⟨?_, ?_, rfl⟩
  · intro name rest pid w1 t w2 hw hcd hpwd hfork hpid hwait
    have hne : c ≠ [] := by
      intro h0
      subst h0
      rw [runs_nil] at hw
      cases hw
    rw [process_input_simple os c st hne hc,
      run_command_external os c { st with log := st.log ++ [Event.bg_check 1 c] }
        name rest pid w1 hw hcd hpwd hfork hpid]
    simp only [hwait, status_after]
    refine ⟨_, rfl, rfl, ?_, ?_, ?_, ?_⟩
    · show (0 : Int) ≤ if WIFEXITED (wait_status t) then (WEXITSTATUS (wait_status t) : Int) else 1
      split
      · exact Int.ofNat_nonneg _
      · decide
    · show (if WIFEXITED (wait_status t) then (WEXITSTATUS (wait_status t) : Int) else 1) ≤ 255
      split
      · exact_mod_cast WEXITSTATUS_le _
      · decide
    · intro code ht
      subst ht
      show (if WIFEXITED (wait_status (.exited code))
        then (WEXITSTATUS (wait_status (.exited code)) : Int) else 1) = _
      rw [(wait_status_exited code).1, (wait_status_exited code).2]
      rfl
    · intro sig core ht h1 h2
      subst ht
      show (if WIFEXITED (wait_status (.signaled sig core))
        then (WEXITSTATUS (wait_status (.signaled sig core)) : Int) else 1) = _
      rw [wait_status_signaled sig core h1 h2]
      rfl
  · intro hb
    refine ⟨fun bg => run_command_blank os c bg st hb, ?_⟩
    intro hne
    rw [process_input_simple os c st hne hc, run_command_blank os c false _ hb]

/-- Witness of the amended C6: `exit7 x` ends with status 7, `crash` (ended by
signal 11) with status 1, and the line of one blank with status 0. -/
theorem single_command_status_witness :
    operator_free "exit7 x".toList = true ∧ operator_free "crash".toList = true ∧
    operator_free " ".toList = true ∧
    (∃ st', process_input demo_os "exit7 x".toList (demo_init 3) = .ok st'
      ∧ st'.last_status = 7) ∧
    (∃ st', process_input demo_os "crash".toList (demo_init 3) = .ok st'
      ∧ st'.last_status = 1) ∧
    process_input demo_os " ".toList (demo_init 3)
      = .ok { demo_init 3 with last_status := 0, log := [Event.bg_check 1 [' ']] } := by
  refine ⟨by decide, by decide, by decide, ?_, ?_, ?_⟩
  · obtain ⟨st', h1, -, -, -, h5, -⟩ :=
      (single_command_status demo_os "exit7 x".toList (demo_init 3) (by decide)).1
        ['e', 'x', 'i', 't', '7'] [['x']] 1 [Child.exec [['e', 'x', 'i', 't', '7'], ['x']]]
        (.exited 7) [Child.exec [['e', 'x', 'i', 't', '7'], ['x']]]
        (by decide) (by decide) (by decide) (by decide) (by decide) (by decide)
    exact ⟨st', h1, h5 7 rfl⟩
  · obtain ⟨st', h1, -, -, -, -, h6⟩ :=
      (single_command_status demo_os "crash".toList (demo_init 3) (by decide)).1
        ['c', 'r', 'a', 's', 'h'] [] 1 [Child.exec [['c', 'r', 'a', 's', 'h']]]
        (.signaled 11 true) [Child.exec [['c', 'r', 'a', 's', 'h']]]
        (by decide) (by decide) (by decide) (by decide) (by decide) (by decide)
    exact ⟨st', h1, h6 11 true rfl (by decide) (by decide)⟩
  · exact ((single_command_status demo_os " ".toList (demo_init 3) (by decide)).2.1
      (by decide)).2 (by decide)

end MyShell
